import Mathlib

/-!
Verification of the adaptive-memory retrieval and maintenance engine.

Shallow embedding of the JavaScript sources:
  search module (splitIntoChunks, extractKeywords, scoreChunk,
  vectorSearchFiles, warmSearchCache, searchMemory),
  injection writer (escapeMarker, buildInjectionSection, injectMemoryChunks),
  lifecycle handler (consent and decline matchers, consent-gated
  optimization step, once-per-session injection marking).

Modelling conventions:
  JavaScript strings are modelled as `List Char` (`Str`); `length`, `slice`
  and `trim` count characters, matching the JS operations.  JS numbers used
  as timestamps are modelled as `Int`; scores are modelled as exact `Rat`
  values, with the float `Math.log` abstracted as a parameter `lg` that the
  theorems constrain only by positivity on arguments of at least two, the
  sole property of it the code relies on.  The filesystem is passed in as an
  association list from path to (mtime, content); the persisted JSON cache
  is an association list preserving JS object key insertion order.
-/

namespace AdaptiveMemory

/-- Character-list model of a JavaScript string. -/
abbrev Str := List Char

/-- Shorthand turning a Lean string literal into its character list. -/
def str (s : String) : Str := s.data

/-- ASCII lowercasing, modelling `String.prototype.toLowerCase` on the
character sets the engine manipulates. -/
def toLowerStr (s : Str) : Str := s.map Char.toLower

/-- Whitespace predicate modelling the JS `\s` class and `String.trim`
on the characters that occur in the corpus model. -/
def isSpaceChar (c : Char) : Bool := c.isWhitespace

/-- JS `String.prototype.trim`: strip whitespace from both ends. -/
def trimStr (s : Str) : Str :=
  ((s.dropWhile isSpaceChar).reverse.dropWhile isSpaceChar).reverse

/-- JS `Array.prototype.join(sep)`. -/
def joinSep (sep : Str) : List Str → Str
  | [] => []
  | [l] => l
  | l :: l' :: ls => l ++ sep ++ joinSep sep (l' :: ls)

/-- Prefix test on character lists (`List.isPrefixOf` specialised). -/
def strStarts : Str → Str → Bool
  | [], _ => true
  | _ :: _, [] => false
  | c :: n, d :: h => c == d && strStarts n h

/-- Substring test modelling `String.prototype.includes`. -/
def strContains (needle : Str) : Str → Bool
  | [] => strStarts needle []
  | c :: t => strStarts needle (c :: t) || strContains needle t

-- ---------------------------------------------------------------------------
-- Chunking engine, from splitIntoChunks in the search module
-- ---------------------------------------------------------------------------

/-- Chunk length cap (MAX_CHUNK_LEN). -/
def MAX_CHUNK_LEN : Nat := 1200

/-- Per-file chunk count cap (MAX_CHUNKS_PER_FILE). -/
def MAX_CHUNKS_PER_FILE : Nat := 200

/-- Cache entry-count ceiling (MAX_CACHE_FILES). -/
def MAX_CACHE_FILES : Nat := 500

/-- Cache serialized-size ceiling in bytes (MAX_CACHE_JSON_BYTES). -/
def MAX_CACHE_JSON_BYTES : Nat := 10 * 1024 * 1024

/-- Does the text begin with a markdown heading marker, i.e. match the
lookahead `#+\s`: one or more hash signs followed by a whitespace char. -/
def isHeadingStart (s : Str) : Bool :=
  (s.head? == some '#') && ((s.dropWhile (fun c => c = '#')).head?.any isSpaceChar)

/-- Worker for the heading split: walk the text, closing the current block
at every newline that is immediately followed by a heading marker, as the
split regex with lookahead does (the newline is consumed, the heading is
not). -/
def headingSplitAux : (s : Str) → (cur : Str) → List Str
  | [], cur => [cur.reverse]
  | c :: rest, cur =>
    if c = '\n' && isHeadingStart rest then
      cur.reverse :: headingSplitAux rest []
    else
      headingSplitAux rest (c :: cur)

/-- Split markdown content into blocks before each heading, modelling
the split on the regex newline-followed-by-heading with lookahead. -/
def headingSplit (content : Str) : List Str := headingSplitAux content []

/-- Worker for the paragraph split: a separator is a maximal run of two or
more newlines, as the greedy regex of two-or-more newlines matches.  In
skip mode the walker is inside a separator run and consumes its remaining
newlines before starting the next part. -/
def paraSplitAux : (s : Str) → (cur : Str) → (skp : Bool) → List Str
  | [], _, true => [[]]
  | [], cur, false => [cur.reverse]
  | c :: rest, cur, true =>
    if c = '\n' then paraSplitAux rest cur true
    else paraSplitAux rest [c] false
  | c :: rest, cur, false =>
    if c = '\n' && rest.head? == some '\n' then
      cur.reverse :: paraSplitAux rest [] true
    else paraSplitAux rest (c :: cur) false

/-- Split a block into paragraphs at runs of two or more newlines. -/
def paraSplit (block : Str) : List Str := paraSplitAux block [] false

/-- Paragraph accumulation loop of splitIntoChunks: grow a buffer until
appending the next paragraph would push it past the cap, then flush. -/
def accumLoop : List Str → Str → List Str
  | [], buf => if trimStr buf ≠ [] then [trimStr buf] else []
  | p :: ps, buf =>
    let candidate := if buf ≠ [] then buf ++ str "\n\n" ++ p else p
    if MAX_CHUNK_LEN < candidate.length then
      (if trimStr buf ≠ [] then [trimStr buf] else []) ++ accumLoop ps p
    else
      accumLoop ps candidate

/-- splitIntoChunks from the search module: split before headings, then
accumulate paragraphs under the length cap, finally truncate to the
per-file chunk cap. -/
def splitIntoChunks (content : Str) : List Str :=
  ((headingSplit content).flatMap (fun b => accumLoop (paraSplit b) [])).take
    MAX_CHUNKS_PER_FILE

-- ---------------------------------------------------------------------------
-- Keyword extraction and scoring, from the search module
-- ---------------------------------------------------------------------------

/-- Stop words filtered from queries (STOP_WORDS). -/
def STOP_WORDS : List Str :=
  [str "the", str "and", str "for", str "are", str "but", str "not",
   str "you", str "all", str "can", str "had", str "her", str "was",
   str "one", str "our", str "out", str "has", str "have", str "been",
   str "some", str "them", str "than", str "its", str "over", str "into",
   str "just", str "about", str "what", str "which", str "when",
   str "make", str "like", str "how", str "each", str "from", str "this",
   str "that", str "with", str "they", str "will", str "would",
   str "there", str "their", str "could", str "other", str "more",
   str "very", str "after", str "most", str "also", str "made",
   str "then", str "many", str "before", str "should", str "these",
   str "where", str "being", str "does", str "show", str "tell",
   str "give", str "help", str "remind", str "please"]

/-- Character class kept by the keyword strip: the complement of the
regex class of lowercase letters, digits, underscore, plus, hash, dot and
dash is removed after lowercasing. -/
def allowedKwChar (c : Char) : Bool :=
  (('a' ≤ c && c ≤ 'z') || c.isDigit || c = '_' || c = '+' || c = '#' ||
   c = '.' || c = '-')

/-- extractKeywords: lowercase, split on whitespace, strip disallowed
characters, keep tokens longer than two characters that are not stop
words.  The JS split on a whitespace-run regex and this per-character
split differ only in empty intermediate tokens, which the length filter
removes in both. -/
def extractKeywords (query : Str) : List Str :=
  (((toLowerStr query).splitOnP isSpaceChar).map (fun w => w.filter allowedKwChar)).filter
    (fun w => 2 < w.length && !(STOP_WORDS.contains w))

/-- JS word-character class of the word-boundary assertion: ASCII letters,
digits and underscore. -/
def isWordChar (c : Char) : Bool := c.isAlphanum || c = '_'

/-- Does the escaped keyword regex match at the current position, given
the character just before it?  Every extracted keyword begins and ends
with a non-boundary-neutral character of the matched literal, so both
compiled forms of buildKeywordMatchers, word-boundary assertions for
word-only keywords and the lookaround pair otherwise, reduce to: the
literal occurs here, the previous character is absent or a non-word
character, and the character after the literal is absent or a non-word
character. -/
def tokenMatchAt (tok : Str) (prev : Option Char) (s : Str) : Bool :=
  (s.take tok.length == tok) && !(prev.any isWordChar) &&
    !((s.drop tok.length).head?.any isWordChar)

/-- Count the non-overlapping left-to-right matches of a keyword matcher
in the text, as a global regex match reports them.  The fuel argument,
initially the text length, dominates the number of characters left and
makes the recursion structural; every step consumes at least one
character, so the fuel never runs out before the text does. -/
def countMatchesFuel (tok : Str) : (fuel : Nat) → (s : Str) → (prev : Option Char) → Nat
  | 0, _, _ => 0
  | _ + 1, [], _ => 0
  | fuel + 1, c :: rest, prev =>
    if !tok.isEmpty && tokenMatchAt tok prev (c :: rest) then
      1 + countMatchesFuel tok fuel ((c :: rest).drop tok.length) tok.getLast?
    else
      countMatchesFuel tok fuel rest (some c)

/-- Matches of one keyword in a (lowercased) chunk text. -/
def countMatches (tok : Str) (s : Str) : Nat := countMatchesFuel tok s.length s none

/-- Number of distinct keywords with at least one match (the hit count of
scoreChunk). -/
def chunkHits (kws : List Str) (s : Str) : Nat :=
  (kws.filter (fun w => 0 < countMatches w s)).length

/-- Per-keyword repetition bonus of scoreChunk: the capped logarithmic
term for a keyword with `m` matches; `lg` stands for the float Math.log,
and 1/5 and 1/2 are the literals 0.2 and 0.5. -/
def bonusTerm (lg : Nat → ℚ) (m : Nat) : ℚ :=
  if 0 < m then min (lg (m + 1) * (1 / 5)) (1 / 2) else 0

/-- Accumulated repetition bonus of scoreChunk over all keywords. -/
def chunkBonus (lg : Nat → ℚ) (kws : List Str) (s : Str) : ℚ :=
  (kws.map (fun w => bonusTerm lg (countMatches w s))).sum

/-- scoreChunk: zero on an empty matcher list, a coverage gate forcing
zero when a query of four or more keywords has fewer than two distinct
hits, and otherwise the capped weighted sum of coverage and repetition
bonus.  Exact rational arithmetic stands in for JS floats and `lg` for
Math.log. -/
def scoreChunk (lg : Nat → ℚ) (kws : List Str) (chunkLower : Str) : ℚ :=
  if kws = [] then 0
  else if 4 ≤ kws.length ∧ chunkHits kws chunkLower < 2 then 0
  else
    min ((chunkHits kws chunkLower : ℚ) / kws.length * (17 / 20) +
      chunkBonus lg kws chunkLower / kws.length * (3 / 10)) 1

-- ---------------------------------------------------------------------------
-- Injection writer, from the distributed hook module
-- ---------------------------------------------------------------------------

/-- Total injected snippet character budget (maxInjectedCharsTotal). -/
def maxInjectedCharsTotal : Nat := 4000

/-- Per-snippet character budget (maxSnippetCharsEach). -/
def maxSnippetCharsEach : Nat := 800

/-- A ranked search hit: path, score, snippet text. -/
structure SearchHit where
  path : Str
  score : ℚ
  snippet : Str
deriving DecidableEq

/-- Characters accepted unchanged by the session-marker sanitizer. -/
def markerSafeChar (c : Char) : Bool :=
  c.isAlphanum || c = '.' || c = '_' || c = '-'

/-- Worker collapsing dash runs; in skip mode the walker is inside a dash
run whose single replacement dash was already emitted. -/
def collapseDashesAux : (s : Str) → (skp : Bool) → Str
  | [], _ => []
  | c :: rest, true =>
    if c = '-' then collapseDashesAux rest true
    else c :: collapseDashesAux rest false
  | c :: rest, false =>
    if c = '-' && rest.head? == some '-' then
      '-' :: collapseDashesAux rest true
    else c :: collapseDashesAux rest false

/-- Collapse every run of two or more dashes to a single dash, as the
global replace of the two-or-more-dash regex does. -/
def collapseDashes (s : Str) : Str := collapseDashesAux s false

/-- escapeMarker: restrict to the safe charset, collapse dash runs,
truncate to 128 characters. -/
def escapeMarker (s : Str) : Str :=
  (collapseDashes (s.map (fun c => if markerSafeChar c then c else '_'))).take 128

/-- The session-specific dedupe marker placed in the daily document. -/
def sessionMarker (sessionKey : Str) : Str :=
  str "<!" ++ str "-- adaptive-memory:session=" ++ escapeMarker sessionKey ++
    str " " ++ str "-->"

/-- Closing marker of an injection section. -/
def sessionEndMarker : Str :=
  str "<!" ++ str "-- adaptive-memory:session:end " ++ str "-->"

/-- Integer rendering of the JS template interpolation of a number. -/
def intStr (i : Int) : Str := (toString i).data

/-- Natural-number rendering in the section heading numbering. -/
def natStr (n : Nat) : Str := (toString n).data

/-- Rendering of (score times 100).toFixed(0) in the section heading.
Rounding of the nonnegative scores to the nearest integer. -/
def renderPercent (score : ℚ) : Str := intStr (round (score * 100))

/-- path.basename: everything after the final slash. -/
def basename (p : Str) : Str :=
  ((p.reverse.takeWhile (fun c => c ≠ '/')).reverse)

/-- Per-chunk loop of buildInjectionSection: push a numbered heading for
each chunk, then the snippet truncated to the per-snippet cap and to the
remaining total budget, stopping once the budget is exhausted.  Returns
the pushed lines together with the list of pushed snippet texts. -/
def injectionChunkBlock : (chunks : List SearchHit) → (i : Nat) → (budget : Nat) →
    List Str × List Str
  | [], _, _ => ([], [])
  | c :: rest, i, budget =>
    let heading := str "### " ++ natStr (i + 1) ++ str ". " ++ basename c.path ++
      str " (relevance: " ++ renderPercent c.score ++ str "%)"
    let snippet := (trimStr c.snippet).take maxSnippetCharsEach
    let take := snippet.take budget
    let budget' := budget - take.length
    let takeLines := if take ≠ [] then [take, []] else ([] : List Str)
    let takeSnips := if take ≠ [] then [take] else ([] : List Str)
    if budget' = 0 then ([heading, []] ++ takeLines, takeSnips)
    else
      let restResult := injectionChunkBlock rest (i + 1) budget'
      ([heading, []] ++ takeLines ++ restResult.1, takeSnips ++ restResult.2)

/-- The snippet texts the section renders, for stating the budget bounds. -/
def injectionSnippetTakes (chunks : List SearchHit) : List Str :=
  (injectionChunkBlock chunks 0 maxInjectedCharsTotal).2

/-- buildInjectionSection: marker line, fixed header lines, per-chunk
lines under the budgets, then a rule and the end marker, joined by
newlines. -/
def buildInjectionSection (marker sessionKey intent : Str) (chunks : List SearchHit)
    (ts : Str) : Str :=
  joinSep (str "\n")
    (marker ::
      (str "## Adaptive Memory Context (auto-injected)" ::
        (str "*Loaded at " ++ ts ++ str " | session: " ++ sessionKey ++ str "*") ::
        str "" ::
        (str "Query: " ++ intent) ::
        str "" ::
        ((injectionChunkBlock chunks 0 maxInjectedCharsTotal).1 ++
          [str "---", sessionEndMarker])))

/-- injectMemoryChunks: given the current daily-document text, return the
injected count and the resulting document text.  Returns zero and leaves
the document unchanged when there are no chunks or when the session
marker is already present; otherwise appends the rendered section. -/
def injectMemoryChunks (sessionKey intent : Str) (chunks : List SearchHit)
    (existing : Str) (ts : Str) : Nat × Str :=
  if chunks.isEmpty then (0, existing)
  else
    let marker := sessionMarker sessionKey
    if strContains marker existing then (0, existing)
    else
      let sec := buildInjectionSection marker sessionKey intent chunks ts
      let next := if existing ≠ [] then existing ++ str "\n\n" ++ sec else sec
      (chunks.length, next)

-- ---------------------------------------------------------------------------
-- Chunk cache model and its JSON serialization
-- ---------------------------------------------------------------------------

/-- Cached entry of one document: last-seen mtime and its chunk texts. -/
structure CacheEntry where
  mtimeMs : Int
  chunks : List Str
deriving DecidableEq

/-- The persisted cache document: version and an ordered map from path to
entry, preserving JS object key insertion order. -/
structure Cache where
  version : Int
  files : List (Str × CacheEntry)
deriving DecidableEq

/-- One file of the modelled filesystem: mtime and content. -/
structure FileData where
  mtimeMs : Int
  content : Str
deriving DecidableEq

/-- Hex digit for the JSON control-character escape. -/
def hexDigitChar (n : Nat) : Char :=
  if n < 10 then Char.ofNat (48 + n) else Char.ofNat (87 + n)

/-- JSON.stringify escaping of one character. -/
def jsonEscChar (c : Char) : Str :=
  if c = '"' then ['\\', '"']
  else if c = '\\' then ['\\', '\\']
  else if c = '\n' then ['\\', 'n']
  else if c = '\r' then ['\\', 'r']
  else if c = '\t' then ['\\', 't']
  else if c.toNat = 8 then ['\\', 'b']
  else if c.toNat = 12 then ['\\', 'f']
  else if c.toNat < 32 then
    str "\\u00" ++ [hexDigitChar (c.toNat / 16), hexDigitChar (c.toNat % 16)]
  else [c]

/-- JSON.stringify escaping of a string body. -/
def jsonEsc (s : Str) : Str := s.flatMap jsonEscChar

/-- A JSON string literal with quotes. -/
def jsonStr (s : Str) : Str := '"' :: (jsonEsc s ++ ['"'])

/-- JSON rendering of one chunk object. -/
def serializeChunk (t : Str) : Str :=
  str "\x7b\"text\":" ++ jsonStr t ++ str "\x7d"

/-- JSON rendering of one cache file entry. -/
def serializeEntry (kv : Str × CacheEntry) : Str :=
  jsonStr kv.1 ++ str ":\x7b\"mtimeMs\":" ++ intStr kv.2.mtimeMs ++
    str ",\"chunks\":[" ++ joinSep (str ",") (kv.2.chunks.map serializeChunk) ++
    str "]\x7d"

/-- JSON.stringify of the whole cache document. -/
def serializeCache (c : Cache) : Str :=
  str "\x7b\"version\":" ++ intStr c.version ++ str ",\"files\":\x7b" ++
    joinSep (str ",") (c.files.map serializeEntry) ++ str "\x7d\x7d"

/-- Buffer.byteLength of a string in utf8. -/
def utf8Len (s : Str) : Nat := (s.map Char.utf8Size).sum

/-- The serialized byte size the eviction loops compare against the cap. -/
def serializedSize (c : Cache) : Nat := utf8Len (serializeCache c)

/-- JS object assignment on the modelled key-ordered map: replace in place
when the key exists, append otherwise. -/
def setKey (files : List (Str × CacheEntry)) (k : Str) (v : CacheEntry) :
    List (Str × CacheEntry) :=
  if files.any (fun kv => kv.1 == k) then
    files.map (fun kv => if kv.1 == k then (k, v) else kv)
  else files ++ [(k, v)]

/-- mtime of an entry with the fallback zero of the sort comparator. -/
def mtimeOf (files : List (Str × CacheEntry)) (k : Str) : Int :=
  ((List.lookup k files).map CacheEntry.mtimeMs).getD 0

/-- The keys sorted newest-modification-first, as both eviction passes
order them. -/
def newestFirstKeys (files : List (Str × CacheEntry)) : List Str :=
  (files.map Prod.fst).mergeSort (fun a b => decide (mtimeOf files b ≤ mtimeOf files a))

/-- Prune pass: keep only entries whose path is among the requested set. -/
def pruneFiles (files : List (Str × CacheEntry)) (current : List Str) :
    List (Str × CacheEntry) :=
  files.filter (fun kv => current.contains kv.1)

/-- Did the prune pass delete anything (it sets the dirty flag then). -/
def pruneDirty (files : List (Str × CacheEntry)) (current : List Str) : Bool :=
  files.any (fun kv => !(current.contains kv.1))

/-- Count-ceiling eviction: when more than the maximum number of entries
remain, delete all but the newest-by-mtime maximum, reporting whether the
dirty flag was set. -/
def evictByCount (c : Cache) : Cache × Bool :=
  let keys := c.files.map Prod.fst
  if MAX_CACHE_FILES < keys.length then
    let sorted := keys.mergeSort (fun a b => decide (mtimeOf c.files b ≤ mtimeOf c.files a))
    let toDrop := sorted.drop MAX_CACHE_FILES
    ({ c with files := c.files.filter (fun kv => !(toDrop.contains kv.1)) }, true)
  else (c, false)

/-- Byte-ceiling eviction loop: keep deleting the oldest remaining key
while the serialized size exceeds the cap and keys remain; `order` is the
pop order, oldest first. -/
def evictWhileOversize : (c : Cache) → (order : List Str) → Cache
  | c, [] => c
  | c, k :: rest =>
    if serializedSize c ≤ MAX_CACHE_JSON_BYTES then c
    else
      evictWhileOversize { c with files := c.files.filter (fun kv => !(kv.1 == k)) } rest

-- ---------------------------------------------------------------------------
-- Search over files with the cache, from vectorSearchFiles
-- ---------------------------------------------------------------------------

/-- Running state of the per-file loop of vectorSearchFiles. -/
structure ScanState where
  cache : Cache
  dirty : Bool
  results : List SearchHit
  readCount : Nat

/-- Score every chunk of one document, pushing each hit at or above the
threshold with its path and 500-character snippet, preserving order. -/
def scoreChunksInto (lg : Nat → ℚ) (kws : List Str) (minScore : ℚ) (path : Str)
    (chunks : List Str) (acc : List SearchHit) : List SearchHit :=
  acc ++ chunks.filterMap (fun ch =>
    let score := scoreChunk lg kws (toLowerStr ch)
    if minScore ≤ score then some ⟨path, score, ch.take 500⟩ else none)

/-- Re-read and re-chunk one document into the cache (the stale or missing
entry branch of the loop). -/
def refreshFile (lg : Nat → ℚ) (kws : List Str) (minScore : ℚ) (st : ScanState)
    (filePath : Str) (fd : FileData) : ScanState :=
  let chunks := splitIntoChunks fd.content
  { cache := { st.cache with files := setKey st.cache.files filePath ⟨fd.mtimeMs, chunks⟩ },
    dirty := true,
    results := scoreChunksInto lg kws minScore filePath chunks st.results,
    readCount := st.readCount + 1 }

/-- Per-file body of the vectorSearchFiles loop: a failed stat skips the
file; an entry with matching mtime is reused unchanged; otherwise the
document is re-read and re-chunked. -/
def processFile (lg : Nat → ℚ) (kws : List Str) (minScore : ℚ)
    (fsd : List (Str × FileData)) (st : ScanState) (filePath : Str) : ScanState :=
  match List.lookup filePath fsd with
  | none => st
  | some fd =>
    match List.lookup filePath st.cache.files with
    | some e =>
      if e.mtimeMs = fd.mtimeMs then
        { st with results := scoreChunksInto lg kws minScore filePath e.chunks st.results }
      else refreshFile lg kws minScore st filePath fd
    | none => refreshFile lg kws minScore st filePath fd

/-- Outcome of one search batch: ranked results, the in-memory cache after
the batch, whether the cache file was written (the dirty flag), and how
many documents were read and re-chunked. -/
structure SearchOutcome where
  results : List SearchHit
  cache : Cache
  dirty : Bool
  readCount : Nat
deriving DecidableEq

/-- Common tail of vectorSearchFiles and warmSearchCache (the two JS
functions repeat the same block): prune entries for paths outside the
requested set, enforce the count ceiling, and enforce the byte ceiling
only when the dirty flag is set.  Returns the resulting cache and the
final dirty flag, which decides the single conditional write. -/
def finishCache (c : Cache) (files : List Str) (dirty0 : Bool) : Cache × Bool :=
  let dirty₁ := dirty0 || pruneDirty c.files files
  let c₁ : Cache := { c with files := pruneFiles c.files files }
  let ev := evictByCount c₁
  let dirty₂ := dirty₁ || ev.2
  let c₃ :=
    if dirty₂ then
      if MAX_CACHE_JSON_BYTES < serializedSize ev.1 then
        evictWhileOversize ev.1 (newestFirstKeys ev.1.files).reverse
      else ev.1
    else ev.1
  (c₃, dirty₂)

/-- vectorSearchFiles: load is modelled by the `cache` argument; empty
matcher list returns immediately; otherwise loop over the files, finish
the cache (prune and both ceilings), report the dirty flag as the single
conditional write, sort hits by score descending and truncate. -/
def vectorSearchFiles (lg : Nat → ℚ) (query : Str) (files : List Str)
    (fsd : List (Str × FileData)) (cache : Cache) (maxResults : Nat)
    (minScore : ℚ) : SearchOutcome :=
  let kws := extractKeywords query
  if kws.isEmpty then ⟨[], cache, false, 0⟩
  else
    let st := files.foldl (processFile lg kws minScore fsd) ⟨cache, false, [], 0⟩
    let fin := finishCache st.cache files st.dirty
    ⟨(st.results.mergeSort (fun a b => decide (b.score ≤ a.score))).take maxResults,
      fin.1, fin.2, st.readCount⟩

/-- Running state of the warmup loop. -/
structure WarmState where
  cache : Cache
  dirty : Bool
  refreshed : Nat
  reused : Nat

/-- Per-file body of the warmSearchCache loop. -/
def warmFile (fsd : List (Str × FileData)) (st : WarmState) (filePath : Str) :
    WarmState :=
  match List.lookup filePath fsd with
  | none => st
  | some fd =>
    match List.lookup filePath st.cache.files with
    | some e =>
      if e.mtimeMs = fd.mtimeMs then { st with reused := st.reused + 1 }
      else
        { st with
          cache := { st.cache with
            files := setKey st.cache.files filePath ⟨fd.mtimeMs, splitIntoChunks fd.content⟩ },
          dirty := true,
          refreshed := st.refreshed + 1 }
    | none =>
      { st with
        cache := { st.cache with
          files := setKey st.cache.files filePath ⟨fd.mtimeMs, splitIntoChunks fd.content⟩ },
        dirty := true,
        refreshed := st.refreshed + 1 }

/-- Outcome of warmSearchCache: the cache after the warmup, the dirty flag
(the single conditional write) and the reported stats. -/
structure WarmOutcome where
  cache : Cache
  dirty : Bool
  refreshed : Nat
  reused : Nat
  filesSeen : Nat

/-- warmSearchCache: same loop without scoring, then prune, count-ceiling
eviction, byte-ceiling eviction only when dirty, and a write only when
dirty. -/
def warmSearchCache (files : List Str) (fsd : List (Str × FileData))
    (cache : Cache) : WarmOutcome :=
  let st := files.foldl (warmFile fsd) ⟨cache, false, 0, 0⟩
  let fin := finishCache st.cache files st.dirty
  ⟨fin.1, fin.2, st.refreshed, st.reused, files.length⟩

/-- searchMemory: the retrieval entry point.  A missing or non-string
query is modelled as `none`; short queries and an empty corpus return
empty without touching cache or corpus; otherwise delegate to
vectorSearchFiles. -/
def searchMemory (lg : Nat → ℚ) (query : Option Str) (memFiles : List Str)
    (fsd : List (Str × FileData)) (cache : Cache) (maxResults : Nat)
    (minScore : ℚ) : SearchOutcome :=
  match query with
  | none => ⟨[], cache, false, 0⟩
  | some q =>
    if q.length < 3 then ⟨[], cache, false, 0⟩
    else if memFiles.length = 0 then ⟨[], cache, false, 0⟩
    else vectorSearchFiles lg q memFiles fsd cache maxResults minScore

-- ---------------------------------------------------------------------------
-- Lifecycle handler, from the hook-pack handler module
-- ---------------------------------------------------------------------------

/-- Apostrophe character, written by code point. -/
def apos : Char := Char.ofNat 39

/-- Persisted maintenance state record. -/
structure MaintenanceState where
  pendingConsent : Bool
  lastPromptAt : Int
  optimizedAt : Int
  snoozeUntil : Int
  declinedAt : Int
deriving DecidableEq

/-- Millisecond length of the 24-hour snooze window. -/
def SNOOZE_MS : Int := 24 * 60 * 60 * 1000

/-- Does the lowercased text contain at least one of the word-bounded
alternatives, as the test of an alternation regex wrapped in word
boundaries reports. -/
def anyBoundedToken (s : Str) (toks : List Str) : Bool :=
  toks.any (fun t => 0 < countMatches t s)

/-- Affirmative alternatives of the consent matcher. -/
def consentYesTokens : List Str :=
  [str "yes", str "yep", str "yeah", str "please", str "go ahead",
   str "do it", str "proceed", str "ok", str "okay"]

/-- Action-verb alternatives of the consent matcher. -/
def consentActionTokens : List Str :=
  [str "optimise", str "optimize", str "compact", str "prune",
   str "clean up", str "reduce", str "shrink"]

/-- Target alternatives of the consent matcher. -/
def consentTargetTokens : List Str :=
  [str "memory", str "memories", str "memory files", str "core memory files"]

/-- Losslessness alternatives of the consent matcher. -/
def consentSafeTokens : List Str :=
  [str "without losing", str "lossless", str "keep all", str "do not lose"]

/-- Negation alternatives of the decline matcher. -/
def declineNoTokens : List Str :=
  [str "no", str "not now", str "later", str "skip", str "cancel",
   str "don" ++ [apos] ++ str "t", str "do not"]

/-- Optimization-or-memory term alternatives of the decline matcher. -/
def declineTermTokens : List Str :=
  [str "optimise", str "optimize", str "compact", str "prune", str "memory"]

/-- isExplicitMemoryOptimizationConsent: lowercase the message, require
either affirmative plus action plus target, or action plus target plus an
explicit losslessness qualifier. -/
def isExplicitMemoryOptimizationConsent (message : Str) : Bool :=
  let s := toLowerStr message
  if s.isEmpty then false
  else
    let yes := anyBoundedToken s consentYesTokens
    let action := anyBoundedToken s consentActionTokens
    let target := anyBoundedToken s consentTargetTokens
    let safe := anyBoundedToken s consentSafeTokens
    (yes && action && target) || (action && target && safe)

/-- isExplicitMemoryOptimizationDecline: negation language combined with
an optimization or memory term. -/
def isExplicitMemoryOptimizationDecline (message : Str) : Bool :=
  let s := toLowerStr message
  if s.isEmpty then false
  else
    anyBoundedToken s declineNoTokens && anyBoundedToken s declineTermTokens

/-- The consent-gated optimization step of the handler on an ordinary
turn: given the persisted maintenance state, the latest user message (or
none) and the current time, return the state as it is persisted afterwards
together with whether the optimization action was invoked.  When the
action throws (`optimizeSucceeds = false`) the catch leaves the state
unwritten. -/
def consentFlowStep (st : MaintenanceState) (latestUser : Option Str) (now : Int)
    (optimizeSucceeds : Bool) : MaintenanceState × Bool :=
  if !st.pendingConsent then (st, false)
  else
    let msg := latestUser.getD []
    if isExplicitMemoryOptimizationConsent msg then
      if optimizeSucceeds then
        ({ st with pendingConsent := false, optimizedAt := now, snoozeUntil := 0 }, true)
      else (st, true)
    else if isExplicitMemoryOptimizationDecline msg then
      ({ st with
          pendingConsent := false
          declinedAt := now
          snoozeUntil := now + SNOOZE_MS }, false)
    else (st, false)

/-- The once-per-session injection part of an ordinary turn: skip when the
session is already marked processed or has no (non-empty) first user
message; otherwise the hook is invoked and the session is marked processed
in the `finally` block, whether or not the hook throws.  Returns the
processed-session set afterwards and whether the hook was invoked. -/
def processTurn (processed : List Str) (sessionKey : Str)
    (firstUserMessage : Option Str) (_hookThrows : Bool) : List Str × Bool :=
  if processed.contains sessionKey then (processed, false)
  else
    match firstUserMessage with
    | none => (processed, false)
    | some m =>
      if m.isEmpty then (processed, false)
      else (sessionKey :: processed, true)

/-- A concrete admissible stand-in for Math.log, used to instantiate the
`lg` parameter on concrete inputs. -/
def lgOne : Nat → ℚ := fun n => (n : ℚ) - 1

/-- An 11-million-character chunk text, larger on its own than the cache
byte ceiling once serialized. -/
def bigChunk : Str := List.replicate 11000000 'x'

/-- A well-formed loaded cache whose single entry makes the serialized
document exceed the byte ceiling. -/
def bigCache : Cache := ⟨1, [(str "a.md", ⟨0, [bigChunk]⟩)]⟩

-- ---------------------------------------------------------------------------
-- General lemmas
-- ---------------------------------------------------------------------------

theorem trimStr_length_le (s : Str) : (trimStr s).length ≤ s.length := by
  simp only [trimStr, List.length_reverse]
  exact le_trans (List.dropWhile_sublist _).length_le
    (by simp only [List.length_reverse]; exact (List.dropWhile_sublist _).length_le)

theorem accumLoop_mem_bound (Q : Str → Prop) :
    ∀ (paras : List Str) (buf : Str),
      (∀ p ∈ paras, Q p) → (buf.length ≤ MAX_CHUNK_LEN ∨ Q buf) →
      ∀ c ∈ accumLoop paras buf,
        c.length ≤ MAX_CHUNK_LEN ∨ ∃ p, Q p ∧ c = trimStr p := by
  intro paras
  induction paras with
  | nil =>
    intro buf hps hbuf c hc
    simp only [accumLoop] at hc
    by_cases ht : trimStr buf ≠ []
    · simp only [if_pos ht, List.mem_singleton] at hc
      subst hc
      rcases hbuf with hlen | hQ
      · exact Or.inl (le_trans (trimStr_length_le buf) hlen)
      · exact Or.inr ⟨buf, hQ, rfl⟩
    · simp only [if_neg ht, List.not_mem_nil] at hc
  | cons p ps ih =>
    intro buf hps hbuf c hc
    simp only [accumLoop] at hc
    by_cases hcand : MAX_CHUNK_LEN < (if buf ≠ [] then buf ++ str "\n\n" ++ p else p).length
    · simp only [if_pos hcand, List.mem_append] at hc
      rcases hc with hflush | hrec
      · by_cases ht : trimStr buf ≠ []
        · simp only [if_pos ht, List.mem_singleton] at hflush
          subst hflush
          rcases hbuf with hlen | hQ
          · exact Or.inl (le_trans (trimStr_length_le buf) hlen)
          · exact Or.inr ⟨buf, hQ, rfl⟩
        · simp only [if_neg ht, List.not_mem_nil] at hflush
      · exact ih p (fun q hq => hps q (List.mem_cons_of_mem _ hq))
          (Or.inr (hps p (List.mem_cons_self _ _))) c hrec
    · simp only [if_neg hcand] at hc
      exact ih _ (fun q hq => hps q (List.mem_cons_of_mem _ hq))
        (Or.inl (le_of_not_lt hcand)) c hc

-- ---------------------------------------------------------------------------
-- Claim theorems
-- ---------------------------------------------------------------------------

/-- C5: for every input text, the chunking function returns at most
MAX_CHUNKS_PER_FILE (200) chunks, and every returned chunk is at most
MAX_CHUNK_LEN (1200) characters long unless it is the trimmed copy of a
single source paragraph that alone exceeds the cap.  Determinism holds
definitionally: splitIntoChunks is a pure function of its input. -/
theorem c5_splitIntoChunks_bounded (content : Str) :
    (splitIntoChunks content).length ≤ MAX_CHUNKS_PER_FILE ∧
    ∀ c ∈ splitIntoChunks content,
      c.length ≤ MAX_CHUNK_LEN ∨
        ∃ b ∈ headingSplit content, ∃ p ∈ paraSplit b,
          c = trimStr p ∧ MAX_CHUNK_LEN < p.length := by
  constructor
  · simp only [splitIntoChunks]
    exact le_trans (le_of_eq (List.length_take _ _)) (min_le_left _ _)
  · intro c hc
    have hc' : c ∈ (headingSplit content).flatMap (fun b => accumLoop (paraSplit b) []) :=
      List.take_subset _ _ hc
    rcases List.mem_flatMap.mp hc' with ⟨b, hb, hcb⟩
    have := accumLoop_mem_bound (fun p => p ∈ paraSplit b) (paraSplit b) []
      (fun _ hp => hp) (Or.inl (Nat.zero_le _)) c hcb
    rcases this with hlen | ⟨p, hp, hcp⟩
    · exact Or.inl hlen
    · by_cases hcl : c.length ≤ MAX_CHUNK_LEN
      · exact Or.inl hcl
      · refine Or.inr ⟨b, hb, p, hp, hcp, ?_⟩
        have h1 : MAX_CHUNK_LEN < c.length := lt_of_not_le hcl
        have h2 : c.length ≤ p.length := hcp ▸ trimStr_length_le p
        exact lt_of_lt_of_le h1 h2

/-- C5 witness: the bounds evaluated on a concrete document. -/
theorem c5_witness :
    (splitIntoChunks (str "hello")).length ≤ MAX_CHUNKS_PER_FILE ∧
    ((str "hello").length ≤ MAX_CHUNK_LEN ∨
      ∃ b ∈ headingSplit (str "hello"), ∃ p ∈ paraSplit b,
        str "hello" = trimStr p ∧ MAX_CHUNK_LEN < p.length) :=
  ⟨(c5_splitIntoChunks_bounded (str "hello")).1,
    (c5_splitIntoChunks_bounded (str "hello")).2 (str "hello") (by decide)⟩

theorem lgOne_pos : ∀ n, 2 ≤ n → 0 < lgOne n := by
  intro n hn
  have h2 : (2 : ℚ) ≤ (n : ℚ) := by exact_mod_cast hn
  simp only [lgOne]
  linarith

theorem chunkBonus_nonneg (lg : Nat → ℚ) (hlg : ∀ n, 2 ≤ n → 0 < lg n)
    (kws : List Str) (s : Str) : 0 ≤ chunkBonus lg kws s := by
  refine List.sum_nonneg ?_
  intro x hx
  rcases List.mem_map.mp hx with ⟨w, _, rfl⟩
  by_cases hm : 0 < countMatches w s
  · simp only [bonusTerm, if_pos hm]
    have hpos : 0 < lg (countMatches w s + 1) :=
      hlg (countMatches w s + 1) (by omega)
    exact le_min (by positivity) (by norm_num)
  · simp only [bonusTerm, if_neg hm]
    exact le_refl 0

/-- C4 (amended): for every query yielding at least 4 keywords, a chunk
matching exactly one keyword scores 0 and a chunk matching exactly two
distinct keywords scores strictly above 0; whenever at least two distinct
keywords match (so the coverage gate passes) the score equals
min(0.85 x hits/count + 0.3 x bonus/count, 1); and in every case the
score lies in [0,1].  The original claim asserts the min formula in all
cases, which fails when the gate forces 0 (see the counterexample). -/
theorem c4_coverage_gate (lg : Nat → ℚ) (hlg : ∀ n, 2 ≤ n → 0 < lg n)
    (query chunk : Str) (hk : 4 ≤ (extractKeywords query).length) :
    (chunkHits (extractKeywords query) chunk = 1 →
      scoreChunk lg (extractKeywords query) chunk = 0) ∧
    (chunkHits (extractKeywords query) chunk = 2 →
      0 < scoreChunk lg (extractKeywords query) chunk) ∧
    (2 ≤ chunkHits (extractKeywords query) chunk →
      scoreChunk lg (extractKeywords query) chunk =
        min ((chunkHits (extractKeywords query) chunk : ℚ) /
            ((extractKeywords query).length : ℚ) * (17 / 20) +
          chunkBonus lg (extractKeywords query) chunk /
            ((extractKeywords query).length : ℚ) * (3 / 10)) 1) ∧
    0 ≤ scoreChunk lg (extractKeywords query) chunk ∧
    scoreChunk lg (extractKeywords query) chunk ≤ 1 := by
  set kws := extractKeywords query with hkws
  have hne : ¬(kws = []) := by
    intro h
    rw [h] at hk
    simp at hk
  have hlen0 : 0 < kws.length := List.length_pos.mpr hne
  have hlenQ : (0 : ℚ) < (kws.length : ℚ) := by exact_mod_cast hlen0
  have hb := chunkBonus_nonneg lg hlg kws chunk
  have hx0 : 0 ≤ (chunkHits kws chunk : ℚ) / (kws.length : ℚ) * (17 / 20) +
      chunkBonus lg kws chunk / (kws.length : ℚ) * (3 / 10) := by
    have t1 : 0 ≤ (chunkHits kws chunk : ℚ) / (kws.length : ℚ) * (17 / 20) := by
      apply mul_nonneg (div_nonneg (by positivity) hlenQ.le) (by norm_num)
    have t2 : 0 ≤ chunkBonus lg kws chunk / (kws.length : ℚ) * (3 / 10) :=
      mul_nonneg (div_nonneg hb hlenQ.le) (by norm_num)
    linarith
  refine ⟨?_, ?_, ?_, ?_, ?_⟩
  · intro h1
    simp only [scoreChunk, if_neg hne]
    rw [if_pos ⟨hk, by omega⟩]
  · intro h2
    simp only [scoreChunk, if_neg hne]
    rw [if_neg (by intro hgate; omega)]
    refine lt_min ?_ one_pos
    have t1 : 0 < (chunkHits kws chunk : ℚ) / (kws.length : ℚ) * (17 / 20) := by
      rw [h2]
      positivity
    have t2 : 0 ≤ chunkBonus lg kws chunk / (kws.length : ℚ) * (3 / 10) :=
      mul_nonneg (div_nonneg hb hlenQ.le) (by norm_num)
    linarith
  · intro h2
    simp only [scoreChunk, if_neg hne]
    rw [if_neg (by intro hgate; omega)]
  · by_cases hgate : 4 ≤ kws.length ∧ chunkHits kws chunk < 2
    · simp only [scoreChunk, if_neg hne]
      rw [if_pos hgate]
    · simp only [scoreChunk, if_neg hne]
      rw [if_neg hgate]
      exact le_min hx0 (by norm_num)
  · by_cases hgate : 4 ≤ kws.length ∧ chunkHits kws chunk < 2
    · simp only [scoreChunk, if_neg hne]
      rw [if_pos hgate]
      norm_num
    · simp only [scoreChunk, if_neg hne]
      rw [if_neg hgate]
      exact min_le_right _ _

/-- C4 witness: the amended properties evaluated on the concrete query
with four keywords and a chunk matching exactly two of them. -/
theorem c4_witness :
    (chunkHits (extractKeywords (str "alpha bravo charlie delta"))
        (str "alpha bravo here") = 1 →
      scoreChunk lgOne (extractKeywords (str "alpha bravo charlie delta"))
        (str "alpha bravo here") = 0) ∧
    (chunkHits (extractKeywords (str "alpha bravo charlie delta"))
        (str "alpha bravo here") = 2 →
      0 < scoreChunk lgOne (extractKeywords (str "alpha bravo charlie delta"))
        (str "alpha bravo here")) ∧
    (2 ≤ chunkHits (extractKeywords (str "alpha bravo charlie delta"))
        (str "alpha bravo here") →
      scoreChunk lgOne (extractKeywords (str "alpha bravo charlie delta"))
        (str "alpha bravo here") =
        min ((chunkHits (extractKeywords (str "alpha bravo charlie delta"))
              (str "alpha bravo here") : ℚ) /
            ((extractKeywords (str "alpha bravo charlie delta")).length : ℚ) * (17 / 20) +
          chunkBonus lgOne (extractKeywords (str "alpha bravo charlie delta"))
              (str "alpha bravo here") /
            ((extractKeywords (str "alpha bravo charlie delta")).length : ℚ) * (3 / 10)) 1) ∧
    0 ≤ scoreChunk lgOne (extractKeywords (str "alpha bravo charlie delta"))
        (str "alpha bravo here") ∧
    scoreChunk lgOne (extractKeywords (str "alpha bravo charlie delta"))
        (str "alpha bravo here") ≤ 1 :=
  c4_coverage_gate lgOne lgOne_pos (str "alpha bravo charlie delta")
    (str "alpha bravo here") (by decide)

/-- C4 counterexample: a four-keyword query against a chunk matching
exactly one keyword scores 0 through the coverage gate, while the min
formula of the claim is strictly positive there, refuting the claim that
the score equals the formula in all cases. -/
theorem c4_counterexample :
    scoreChunk lgOne (extractKeywords (str "alpha bravo charlie delta"))
        (str "alpha") = 0 ∧
    scoreChunk lgOne (extractKeywords (str "alpha bravo charlie delta"))
        (str "alpha") ≠
      min ((chunkHits (extractKeywords (str "alpha bravo charlie delta"))
            (str "alpha") : ℚ) /
          ((extractKeywords (str "alpha bravo charlie delta")).length : ℚ) * (17 / 20) +
        chunkBonus lgOne (extractKeywords (str "alpha bravo charlie delta"))
            (str "alpha") /
          ((extractKeywords (str "alpha bravo charlie delta")).length : ℚ) * (3 / 10)) 1 := by
  have h0 : scoreChunk lgOne (extractKeywords (str "alpha bravo charlie delta"))
      (str "alpha") = 0 := by
    simp only [scoreChunk]
    rw [if_neg (by decide), if_pos (by decide)]
  refine ⟨h0, ?_⟩
  rw [h0]
  have hh : chunkHits (extractKeywords (str "alpha bravo charlie delta"))
      (str "alpha") = 1 := by decide
  have hl : (extractKeywords (str "alpha bravo charlie delta")).length = 4 := by decide
  have hb : 0 ≤ chunkBonus lgOne (extractKeywords (str "alpha bravo charlie delta"))
      (str "alpha") := chunkBonus_nonneg lgOne lgOne_pos _ _
  rw [hh, hl]
  have hx : (0 : ℚ) < ((1 : Nat) : ℚ) / ((4 : Nat) : ℚ) * (17 / 20) +
      chunkBonus lgOne (extractKeywords (str "alpha bravo charlie delta"))
          (str "alpha") / ((4 : Nat) : ℚ) * (3 / 10) := by
    have t1 : (0 : ℚ) < ((1 : Nat) : ℚ) / ((4 : Nat) : ℚ) * (17 / 20) := by norm_num
    have t2 : (0 : ℚ) ≤ chunkBonus lgOne (extractKeywords (str "alpha bravo charlie delta"))
        (str "alpha") / ((4 : Nat) : ℚ) * (3 / 10) := by
      apply mul_nonneg (div_nonneg hb (by norm_num)) (by norm_num)
    linarith
  exact (ne_of_lt (lt_min hx one_pos))

theorem strStarts_self_append (n m : Str) : strStarts n (n ++ m) = true := by
  induction n with
  | nil => rfl
  | cons c t ih => simp [strStarts, ih]

theorem strContains_self_append (n m : Str) : strContains n (n ++ m) = true := by
  cases n with
  | nil =>
    cases m with
    | nil => rfl
    | cons c t => rfl
  | cons c t =>
    rw [List.cons_append]
    simp only [strContains, Bool.or_eq_true]
    refine Or.inl ?_
    rw [← List.cons_append]
    exact strStarts_self_append _ _

theorem strContains_append_left (needle a b : Str)
    (h : strContains needle b = true) : strContains needle (a ++ b) = true := by
  induction a with
  | nil => simpa using h
  | cons c a' ih => simp [strContains, ih]

theorem joinSep_cons_cons (sep a b : Str) (ls : List Str) :
    joinSep sep (a :: b :: ls) = a ++ sep ++ joinSep sep (b :: ls) := rfl

theorem buildInjectionSection_marker_prefix (marker sessionKey intent : Str)
    (chunks : List SearchHit) (ts : Str) :
    ∃ restText, buildInjectionSection marker sessionKey intent chunks ts =
      marker ++ restText := by
  refine ⟨str "\n" ++ joinSep (str "\n")
    (str "## Adaptive Memory Context (auto-injected)" ::
      (str "*Loaded at " ++ ts ++ str " | session: " ++ sessionKey ++ str "*") ::
      str "" ::
      (str "Query: " ++ intent) ::
      str "" ::
      ((injectionChunkBlock chunks 0 maxInjectedCharsTotal).1 ++
        [str "---", sessionEndMarker])), ?_⟩
  rw [buildInjectionSection, joinSep_cons_cons, List.append_assoc]

theorem injectMemoryChunks_of_contains (sessionKey intent : Str)
    (chunks : List SearchHit) (existing ts : Str)
    (hc : strContains (sessionMarker sessionKey) existing = true) :
    injectMemoryChunks sessionKey intent chunks existing ts = (0, existing) := by
  by_cases h1 : chunks.isEmpty
  · simp [injectMemoryChunks, h1]
  · simp [injectMemoryChunks, h1, hc]

theorem injectMemoryChunks_append (sessionKey intent : Str)
    (chunks : List SearchHit) (existing ts : Str)
    (h1 : ¬(chunks.isEmpty = true))
    (h2 : ¬(strContains (sessionMarker sessionKey) existing = true)) :
    injectMemoryChunks sessionKey intent chunks existing ts =
      (chunks.length,
        if existing ≠ [] then
          existing ++ str "\n\n" ++
            buildInjectionSection (sessionMarker sessionKey) sessionKey intent chunks ts
        else
          buildInjectionSection (sessionMarker sessionKey) sessionKey intent chunks ts) := by
  simp only [injectMemoryChunks]
  rw [if_neg h1, if_neg h2]

theorem injectMemoryChunks_marker (sessionKey intent : Str)
    (chunks : List SearchHit) (existing ts : Str)
    (hpos : 0 < (injectMemoryChunks sessionKey intent chunks existing ts).1) :
    strContains (sessionMarker sessionKey)
      (injectMemoryChunks sessionKey intent chunks existing ts).2 = true := by
  by_cases h1 : chunks.isEmpty
  · simp [injectMemoryChunks, h1] at hpos
  · by_cases h2 : strContains (sessionMarker sessionKey) existing = true
    · simp [injectMemoryChunks, h1, h2] at hpos
    · rw [injectMemoryChunks_append sessionKey intent chunks existing ts h1 h2]
      rcases buildInjectionSection_marker_prefix (sessionMarker sessionKey)
        sessionKey intent chunks ts with ⟨restText, hsec⟩
      by_cases h3 : existing = []
      · rw [if_neg (by simp [h3])]
        show strContains (sessionMarker sessionKey)
          (buildInjectionSection (sessionMarker sessionKey) sessionKey intent chunks ts) = true
        rw [hsec]
        exact strContains_self_append _ _
      · rw [if_pos h3]
        show strContains (sessionMarker sessionKey)
          (existing ++ str "\n\n" ++
            buildInjectionSection (sessionMarker sessionKey) sessionKey intent chunks ts) = true
        rw [hsec]
        exact strContains_append_left _ _ _ (strContains_self_append _ _)

/-- C1: if the injection writer appends a section for a session (returning
a positive count), then any later call for the same session against the
resulting daily document returns 0 and leaves the document unchanged, for
any chunk list, intent and timestamp of the later call: at most one
injection section per session and daily document. -/
theorem c1_injection_idempotent (sessionKey intent intent2 : Str)
    (chunks chunks2 : List SearchHit) (existing ts ts2 : Str)
    (hpos : 0 < (injectMemoryChunks sessionKey intent chunks existing ts).1) :
    injectMemoryChunks sessionKey intent2 chunks2
        (injectMemoryChunks sessionKey intent chunks existing ts).2 ts2 =
      (0, (injectMemoryChunks sessionKey intent chunks existing ts).2) :=
  injectMemoryChunks_of_contains sessionKey intent2 chunks2 _ ts2
    (injectMemoryChunks_marker sessionKey intent chunks existing ts hpos)

/-- C1 witness: a concrete first injection returns count 1, and the second
call on the produced document returns 0 and leaves it unchanged. -/
theorem c1_witness :
    injectMemoryChunks (str "s1") (str "again") [⟨str "b.md", 1, str "other"⟩]
        (injectMemoryChunks (str "s1") (str "hello")
          [⟨str "m.md", 1, str "snip"⟩] (str "") (str "t1")).2 (str "t2") =
      (0, (injectMemoryChunks (str "s1") (str "hello")
        [⟨str "m.md", 1, str "snip"⟩] (str "") (str "t1")).2) :=
  c1_injection_idempotent (str "s1") (str "hello") (str "again")
    [⟨str "m.md", 1, str "snip"⟩] [⟨str "b.md", 1, str "other"⟩]
    (str "") (str "t1") (str "t2") (by decide)

theorem injectionChunkBlock_budget :
    ∀ (chunks : List SearchHit) (i budget : Nat),
      (((injectionChunkBlock chunks i budget).2.map List.length).sum ≤ budget) ∧
      ∀ t ∈ (injectionChunkBlock chunks i budget).2,
        t.length ≤ maxSnippetCharsEach := by
  intro chunks
  induction chunks with
  | nil =>
    intro i budget
    constructor
    · simp [injectionChunkBlock]
    · intro t ht
      simp [injectionChunkBlock] at ht
  | cons c rest ih =>
    intro i budget
    have htb : (((trimStr c.snippet).take maxSnippetCharsEach).take budget).length ≤
        budget := by
      rw [List.length_take]
      exact min_le_left _ _
    have hts : (((trimStr c.snippet).take maxSnippetCharsEach).take budget).length ≤
        maxSnippetCharsEach := by
      rw [List.length_take, List.length_take]
      exact le_trans (min_le_right _ _) (min_le_left _ _)
    by_cases hz :
      budget - (((trimStr c.snippet).take maxSnippetCharsEach).take budget).length = 0
    · constructor
      · show ((injectionChunkBlock (c :: rest) i budget).2.map List.length).sum ≤ budget
        simp only [injectionChunkBlock, hz, if_pos]
        by_cases hne : ((trimStr c.snippet).take maxSnippetCharsEach).take budget ≠ []
        · simp only [if_pos hne, List.map_cons, List.map_nil, List.sum_cons,
            List.sum_nil, add_zero]
          exact htb
        · simp only [if_neg hne, List.map_nil, List.sum_nil]
          exact Nat.zero_le _
      · intro t ht
        simp only [injectionChunkBlock, hz, if_pos] at ht
        by_cases hne : ((trimStr c.snippet).take maxSnippetCharsEach).take budget ≠ []
        · simp only [if_pos hne, List.mem_singleton] at ht
          subst ht
          exact hts
        · simp only [if_neg hne, List.not_mem_nil] at ht
    · have hrec := ih (i + 1)
        (budget - (((trimStr c.snippet).take maxSnippetCharsEach).take budget).length)
      constructor
      · show ((injectionChunkBlock (c :: rest) i budget).2.map List.length).sum ≤ budget
        simp only [injectionChunkBlock, hz, if_neg, if_false]
        by_cases hne : ((trimStr c.snippet).take maxSnippetCharsEach).take budget ≠ []
        · simp only [if_pos hne, List.map_append, List.sum_append, List.map_cons,
            List.map_nil, List.sum_cons, List.sum_nil, add_zero]
          have := hrec.1
          omega
        · simp only [if_neg hne, List.nil_append]
          have := hrec.1
          omega
      · intro t ht
        simp only [injectionChunkBlock, hz, if_neg, if_false] at ht
        by_cases hne : ((trimStr c.snippet).take maxSnippetCharsEach).take budget ≠ []
        · simp only [if_pos hne, List.mem_append, List.mem_singleton] at ht
          rcases ht with h | h
          · subst h; exact hts
          · exact hrec.2 t h
        · simp only [if_neg hne, List.nil_append] at ht
          exact hrec.2 t ht

/-- C7 (amended): for every candidate chunk list, the rendered injection
section contains at most maxInjectedCharsTotal (4000) characters of
snippet content in total and at most maxSnippetCharsEach (800) characters
of snippet content from any single chunk.  The budgets of the code are
character budgets (slice and length), not byte budgets: the byte bounds
of the original claim fail for non-ASCII snippets (see the
counterexample). -/
theorem c7_injection_budget (chunks : List SearchHit) :
    (((injectionSnippetTakes chunks).map List.length).sum ≤ maxInjectedCharsTotal) ∧
    ∀ t ∈ injectionSnippetTakes chunks, t.length ≤ maxSnippetCharsEach :=
  injectionChunkBlock_budget chunks 0 maxInjectedCharsTotal

set_option maxRecDepth 8000 in
/-- C7 witness: five chunks each larger than the per-snippet cap; the
first rendered snippet is the 800-character truncation and the bounds
hold. -/
theorem c7_witness :
    (((injectionSnippetTakes (List.replicate 5
        ⟨str "m.md", 1, List.replicate 900 'x'⟩)).map List.length).sum ≤
      maxInjectedCharsTotal) ∧
    (List.replicate 800 'x').length ≤ maxSnippetCharsEach :=
  ⟨(c7_injection_budget (List.replicate 5 ⟨str "m.md", 1, List.replicate 900 'x'⟩)).1,
    (c7_injection_budget (List.replicate 5 ⟨str "m.md", 1, List.replicate 900 'x'⟩)).2
      (List.replicate 800 'x') (by decide)⟩

set_option maxRecDepth 8000 in
/-- C7 counterexample: five chunks whose snippets consist of two-byte
characters.  The rendered section takes 800 characters from the first
chunk, which is 1600 utf8 bytes, above the claimed 800-byte per-snippet
bound, and the five takes together hold 8000 utf8 bytes of snippet
content, above the claimed 4000-byte total: the code budgets characters,
so the byte bounds of the claim as stated are false. -/
theorem c7_counterexample :
    List.replicate 800 'é' ∈ injectionSnippetTakes (List.replicate 5
      ⟨str "m.md", 1, List.replicate 900 'é'⟩) ∧
    maxSnippetCharsEach < utf8Len (List.replicate 800 'é') ∧
    maxInjectedCharsTotal < ((injectionSnippetTakes (List.replicate 5
      ⟨str "m.md", 1, List.replicate 900 'é'⟩)).map utf8Len).sum := by
  refine ⟨by decide, by decide, by decide⟩

/-- C2: while the maintenance state has a pending consent prompt, a latest
user message matching neither the explicit consent pattern nor the decline
pattern leaves the persisted state unchanged and does not invoke the
optimization action; and in every state, on every turn, the optimization
action is invoked only when the message matches the explicit affirmative
consent pattern. -/
theorem c2_consent_gate (st : MaintenanceState) (msg : Str) (now : Int) (b : Bool)
    (hp : st.pendingConsent = true)
    (hc : isExplicitMemoryOptimizationConsent msg = false)
    (hd : isExplicitMemoryOptimizationDecline msg = false) :
    consentFlowStep st (some msg) now b = (st, false) ∧
    ∀ (st2 : MaintenanceState) (u : Option Str) (n2 : Int) (b2 : Bool),
      (consentFlowStep st2 u n2 b2).2 = true →
      isExplicitMemoryOptimizationConsent (u.getD []) = true := by
  constructor
  · simp [consentFlowStep, hp, hc, hd]
  · intro st2 u n2 b2 h
    by_cases h1 : st2.pendingConsent = true
    · by_cases h2 : isExplicitMemoryOptimizationConsent (u.getD []) = true
      · exact h2
      · exfalso
        by_cases h3 : isExplicitMemoryOptimizationDecline (u.getD []) = true
        · simp [consentFlowStep, h1, h2, h3] at h
        · simp [consentFlowStep, h1, h2, h3] at h
    · simp only [consentFlowStep] at h
      rw [if_pos (by simp [Bool.eq_false_iff.mpr] at h1 ⊢; simp [h1])] at h
      exact absurd h (by simp)

/-- C2 witness: a pending prompt and the ambiguous message neither
consenting nor declining leave the state unchanged. -/
theorem c2_witness :
    consentFlowStep ⟨true, 3, 4, 5, 6⟩ (some (str "maybe tomorrow")) 1000 true =
      (⟨true, 3, 4, 5, 6⟩, false) ∧
    ∀ (st2 : MaintenanceState) (u : Option Str) (n2 : Int) (b2 : Bool),
      (consentFlowStep st2 u n2 b2).2 = true →
      isExplicitMemoryOptimizationConsent (u.getD []) = true :=
  c2_consent_gate ⟨true, 3, 4, 5, 6⟩ (str "maybe tomorrow") 1000 true
    rfl (by decide) (by decide)

/-- C8 counterexample: with a pending prompt, the latest user message
"no, not now" matches neither pattern, because the decline regex also
requires an optimization or memory term; the state is returned unchanged,
the prompt is not cleared and no snooze deadline is set, contradicting the
claimed transition to snoozed. -/
theorem c8_counterexample :
    isExplicitMemoryOptimizationDecline (str "no, not now") = false ∧
    consentFlowStep ⟨true, 0, 0, 0, 0⟩ (some (str "no, not now")) 1000 true =
      (⟨true, 0, 0, 0, 0⟩, false) ∧
    ¬((consentFlowStep ⟨true, 0, 0, 0, 0⟩
          (some (str "no, not now")) 1000 true).1.pendingConsent = false ∧
      1000 + SNOOZE_MS ≤ (consentFlowStep ⟨true, 0, 0, 0, 0⟩
          (some (str "no, not now")) 1000 true).1.snoozeUntil) := by
  decide

/-- C8 (amended): with a pending prompt, a latest user message that
matches the explicit decline pattern (negation language combined with an
optimization or memory term, for example "no, do not compact memory now";
the bare "no, not now" matches neither pattern and leaves the state
unchanged) and does not match the consent pattern transitions the state to
snoozed: the prompt flag is cleared, the snooze deadline is set to
now + 24h, and the optimization action is not invoked. -/
theorem c8_decline_flow (st : MaintenanceState) (msg : Str) (now : Int) (b : Bool)
    (hp : st.pendingConsent = true)
    (hc : isExplicitMemoryOptimizationConsent msg = false)
    (hd : isExplicitMemoryOptimizationDecline msg = true) :
    consentFlowStep st (some msg) now b =
      ({ st with
          pendingConsent := false
          declinedAt := now
          snoozeUntil := now + SNOOZE_MS }, false) ∧
    now + SNOOZE_MS ≤
      (consentFlowStep st (some msg) now b).1.snoozeUntil := by
  have h : consentFlowStep st (some msg) now b =
      ({ st with
          pendingConsent := false
          declinedAt := now
          snoozeUntil := now + SNOOZE_MS }, false) := by
    simp [consentFlowStep, hp, hc, hd]
  exact ⟨h, by rw [h]⟩

/-- C8 witness: the amended decline flow on a concrete declining message
with an explicit memory term. -/
theorem c8_witness :
    consentFlowStep ⟨true, 7, 8, 9, 10⟩
        (some (str "no, do not compact memory now")) 1000 true =
      ({ pendingConsent := false, lastPromptAt := 7, optimizedAt := 8,
         snoozeUntil := 1000 + SNOOZE_MS, declinedAt := 1000 }, false) ∧
    1000 + SNOOZE_MS ≤
      (consentFlowStep ⟨true, 7, 8, 9, 10⟩
        (some (str "no, do not compact memory now")) 1000 true).1.snoozeUntil :=
  c8_decline_flow ⟨true, 7, 8, 9, 10⟩ (str "no, do not compact memory now")
    1000 true rfl (by decide) (by decide)

/-- C10: an ordinary-turn event whose session is not yet marked processed
and has a non-empty first user message invokes the injection hook and
marks the session processed whatever the hook outcome (the throws flag
does not influence the result), and every later turn for the same session
key, with any message and any hook outcome, leaves the set unchanged and
does not invoke the hook again. -/
theorem c10_processed_once (processed : List Str) (sessionKey : Str) (m : Str)
    (throws1 : Bool)
    (hnp : processed.contains sessionKey = false)
    (hm : m ≠ []) :
    (processTurn processed sessionKey (some m) throws1).2 = true ∧
    (processTurn processed sessionKey (some m) throws1).1.contains sessionKey = true ∧
    ∀ (m2 : Option Str) (throws2 : Bool),
      processTurn (processTurn processed sessionKey (some m) throws1).1
          sessionKey m2 throws2 =
        ((processTurn processed sessionKey (some m) throws1).1, false) := by
  have hme : m.isEmpty = false := by
    cases m with
    | nil => exact absurd rfl hm
    | cons a l => rfl
  have hmem : sessionKey ∉ processed := by simpa using hnp
  have hrun : processTurn processed sessionKey (some m) throws1 =
      (sessionKey :: processed, true) := by
    simp [processTurn, hnp, hme, hmem]
  refine ⟨by rw [hrun], ?_, ?_⟩
  · rw [hrun]
    simp [List.contains_cons]
  · intro m2 throws2
    rw [hrun]
    simp [processTurn, List.contains_cons]

/-- C10 witness: a fresh session with message "hi" under a throwing hook
is marked processed and never re-processed. -/
theorem c10_witness :
    (processTurn [] (str "s1") (some (str "hi")) true).2 = true ∧
    (processTurn [] (str "s1") (some (str "hi")) true).1.contains (str "s1") = true ∧
    ∀ (m2 : Option Str) (throws2 : Bool),
      processTurn (processTurn [] (str "s1") (some (str "hi")) true).1
          (str "s1") m2 throws2 =
        ((processTurn [] (str "s1") (some (str "hi")) true).1, false) :=
  c10_processed_once [] (str "s1") (str "hi") true (by decide) (by decide)

theorem processFile_clean (lg : Nat → ℚ) (kws : List Str) (ms : ℚ)
    (fsd : List (Str × FileData)) (st : ScanState) (f : Str)
    (hf : ∃ fd, List.lookup f fsd = some fd ∧
      ∃ e, List.lookup f st.cache.files = some e ∧ e.mtimeMs = fd.mtimeMs) :
    (processFile lg kws ms fsd st f).cache = st.cache ∧
    (processFile lg kws ms fsd st f).dirty = st.dirty ∧
    (processFile lg kws ms fsd st f).readCount = st.readCount := by
  rcases hf with ⟨fd, hfd, e, he, hm⟩
  simp [processFile, hfd, he, hm]

theorem foldl_processFile_clean (lg : Nat → ℚ) (kws : List Str) (ms : ℚ)
    (fsd : List (Str × FileData)) :
    ∀ (files : List Str) (st : ScanState),
      (∀ f ∈ files, ∃ fd, List.lookup f fsd = some fd ∧
        ∃ e, List.lookup f st.cache.files = some e ∧ e.mtimeMs = fd.mtimeMs) →
      (files.foldl (processFile lg kws ms fsd) st).cache = st.cache ∧
      (files.foldl (processFile lg kws ms fsd) st).dirty = st.dirty ∧
      (files.foldl (processFile lg kws ms fsd) st).readCount = st.readCount := by
  intro files
  induction files with
  | nil => intro st _; exact ⟨rfl, rfl, rfl⟩
  | cons f fs ih =>
    intro st h
    have h1 := processFile_clean lg kws ms fsd st f (h f (List.mem_cons_self _ _))
    have h2 := ih (processFile lg kws ms fsd st f) (by
      intro f' hf'
      have h3 := h f' (List.mem_cons_of_mem _ hf')
      rwa [h1.1])
    rw [List.foldl_cons]
    exact ⟨h2.1.trans h1.1, h2.2.1.trans h1.2.1, h2.2.2.trans h1.2.2⟩

theorem finishCache_clean (c : Cache) (files : List Str)
    (hkeys : ∀ kv ∈ c.files, files.contains kv.1 = true)
    (hcount : c.files.length ≤ MAX_CACHE_FILES) :
    finishCache c files false = (c, false) := by
  have hprune : pruneFiles c.files files = c.files :=
    List.filter_eq_self.mpr hkeys
  have hpd : pruneDirty c.files files = false := by
    rw [pruneDirty]
    rw [List.any_eq_false]
    intro kv hkv
    simpa using hkeys kv hkv
  have hceq : ({ c with files := pruneFiles c.files files } : Cache) = c := by
    rw [hprune]
  have hev : evictByCount c = (c, false) := by
    rw [evictByCount]
    rw [if_neg (by rw [List.length_map]; omega)]
  simp only [finishCache, hpd, Bool.or_false, hceq, hev, Bool.false_or, if_false,
    Bool.false_eq_true]

theorem vectorSearchFiles_clean_batch (lg : Nat → ℚ) (query : Str)
    (files : List Str) (fsd : List (Str × FileData)) (cache : Cache)
    (maxResults : Nat) (minScore : ℚ)
    (hmatch : ∀ f ∈ files, ∃ fd, List.lookup f fsd = some fd ∧
      ∃ e, List.lookup f cache.files = some e ∧ e.mtimeMs = fd.mtimeMs)
    (hkeys : ∀ kv ∈ cache.files, files.contains kv.1 = true)
    (hcount : cache.files.length ≤ MAX_CACHE_FILES) :
    (vectorSearchFiles lg query files fsd cache maxResults minScore).cache = cache ∧
    (vectorSearchFiles lg query files fsd cache maxResults minScore).dirty = false ∧
    (vectorSearchFiles lg query files fsd cache maxResults minScore).readCount = 0 := by
  by_cases hkw : (extractKeywords query).isEmpty
  · simp [vectorSearchFiles, hkw]
  · have hst := foldl_processFile_clean lg (extractKeywords query) minScore fsd files
      ⟨cache, false, [], 0⟩ hmatch
    have h1 : (files.foldl (processFile lg (extractKeywords query) minScore fsd)
        ⟨cache, false, [], 0⟩).cache = cache := hst.1
    have h2 : (files.foldl (processFile lg (extractKeywords query) minScore fsd)
        ⟨cache, false, [], 0⟩).dirty = false := hst.2.1
    have h3 : (files.foldl (processFile lg (extractKeywords query) minScore fsd)
        ⟨cache, false, [], 0⟩).readCount = 0 := hst.2.2
    simp only [vectorSearchFiles, hkw, Bool.false_eq_true, if_false, h1, h2, h3,
      finishCache_clean cache files hkeys hcount]
    exact ⟨trivial, trivial, trivial⟩

/-- C3: in a search batch where every requested document has a cache entry
with the current modification timestamp, no entry belongs to a deleted
path (nothing to prune) and the entry count is within the ceiling (no
eviction), the search reads and re-chunks zero documents, leaves the
in-memory cache exactly as loaded, and reports no write (the dirty flag,
which alone triggers persisting the cache file, stays false). -/
theorem c3_unchanged_corpus_no_io (lg : Nat → ℚ) (query : Str)
    (files : List Str) (fsd : List (Str × FileData)) (cache : Cache)
    (maxResults : Nat) (minScore : ℚ)
    (hmatch : ∀ f ∈ files, ∃ fd, List.lookup f fsd = some fd ∧
      ∃ e, List.lookup f cache.files = some e ∧ e.mtimeMs = fd.mtimeMs)
    (hkeys : ∀ kv ∈ cache.files, files.contains kv.1 = true)
    (hcount : cache.files.length ≤ MAX_CACHE_FILES) :
    (vectorSearchFiles lg query files fsd cache maxResults minScore).cache = cache ∧
    (vectorSearchFiles lg query files fsd cache maxResults minScore).dirty = false ∧
    (vectorSearchFiles lg query files fsd cache maxResults minScore).readCount = 0 :=
  vectorSearchFiles_clean_batch lg query files fsd cache maxResults minScore
    hmatch hkeys hcount

/-- C3 witness: a concrete one-file corpus whose cached timestamp matches;
the batch returns the loaded cache byte-for-byte, with no read and no
write. -/
theorem c3_witness :
    (vectorSearchFiles lgOne (str "alpha notes") [str "a.md"]
        [(str "a.md", ⟨3, str "hi"⟩)] ⟨1, [(str "a.md", ⟨3, [str "hi"]⟩)]⟩
        10 1).cache = ⟨1, [(str "a.md", ⟨3, [str "hi"]⟩)]⟩ ∧
    (vectorSearchFiles lgOne (str "alpha notes") [str "a.md"]
        [(str "a.md", ⟨3, str "hi"⟩)] ⟨1, [(str "a.md", ⟨3, [str "hi"]⟩)]⟩
        10 1).dirty = false ∧
    (vectorSearchFiles lgOne (str "alpha notes") [str "a.md"]
        [(str "a.md", ⟨3, str "hi"⟩)] ⟨1, [(str "a.md", ⟨3, [str "hi"]⟩)]⟩
        10 1).readCount = 0 :=
  c3_unchanged_corpus_no_io lgOne (str "alpha notes") [str "a.md"]
    [(str "a.md", ⟨3, str "hi"⟩)] ⟨1, [(str "a.md", ⟨3, [str "hi"]⟩)]⟩ 10 1
    (by
      intro f hf
      simp only [List.mem_singleton] at hf
      subst hf
      exact ⟨⟨3, str "hi"⟩, rfl, ⟨3, [str "hi"]⟩, rfl, rfl⟩)
    (by decide) (by decide)

/-- C9: a missing or non-string query (modelled as none), a query shorter
than 3 characters, and a query whose keyword extraction yields zero
keywords all make the retrieval entry point return the empty result list
with the cache untouched, no document read or chunked, and no cache-file
write; being a total function, the model returns rather than raising. -/
theorem c9_trivial_query_empty (lg : Nat → ℚ) (query : Option Str)
    (memFiles : List Str) (fsd : List (Str × FileData)) (cache : Cache)
    (maxResults : Nat) (minScore : ℚ)
    (h : query = none ∨ (∃ q, query = some q ∧ q.length < 3) ∨
      (∃ q, query = some q ∧ extractKeywords q = [])) :
    searchMemory lg query memFiles fsd cache maxResults minScore =
      ⟨[], cache, false, 0⟩ := by
  rcases h with h | ⟨q, hq, hlen⟩ | ⟨q, hq, hkw⟩
  · subst h; rfl
  · subst hq
    simp [searchMemory, hlen]
  · subst hq
    by_cases hlen : q.length < 3
    · simp [searchMemory, hlen]
    · by_cases hmf : memFiles.length = 0
      · simp [searchMemory, hlen, hmf]
      · simp [searchMemory, hlen, hmf, vectorSearchFiles, hkw]

/-- C9 witness: the two-character query returns the empty outcome. -/
theorem c9_witness :
    searchMemory lgOne (some (str "ab")) [str "a.md"]
        [(str "a.md", ⟨3, str "hi"⟩)] ⟨1, []⟩ 10 1 =
      ⟨[], ⟨1, []⟩, false, 0⟩ :=
  c9_trivial_query_empty lgOne (some (str "ab")) [str "a.md"]
    [(str "a.md", ⟨3, str "hi"⟩)] ⟨1, []⟩ 10 1
    (Or.inr (Or.inl ⟨str "ab", rfl, by decide⟩))

theorem evictByCount_version (c : Cache) : (evictByCount c).1.version = c.version := by
  simp only [evictByCount]
  split
  · rfl
  · rfl

theorem evictByCount_sublist (c : Cache) :
    ((evictByCount c).1.files).Sublist c.files := by
  simp only [evictByCount]
  split
  · exact List.filter_sublist _
  · exact List.Sublist.refl _

theorem length_filter_not_in_drop (files : List (Str × CacheEntry))
    (sorted : List Str) (n : Nat)
    (hperm : sorted.Perm (files.map Prod.fst))
    (hn : (files.map Prod.fst).Nodup) :
    (files.filter (fun kv => !((sorted.drop n).contains kv.1))).length ≤ n := by
  have hkeysub : ((files.filter (fun kv => !((sorted.drop n).contains kv.1))).map
      Prod.fst) ⊆ sorted.take n := by
    intro x hx
    rcases List.mem_map.mp hx with ⟨kv, hkv, rfl⟩
    have h1 := List.mem_filter.mp hkv
    have hmem : kv.1 ∈ files.map Prod.fst := List.mem_map_of_mem _ h1.1
    have hmem2 : kv.1 ∈ sorted := hperm.mem_iff.mpr hmem
    have hsplit : kv.1 ∈ sorted.take n ++ sorted.drop n := by
      rw [List.take_append_drop]
      exact hmem2
    rcases List.mem_append.mp hsplit with h2 | h2
    · exact h2
    · exfalso
      have h3 := h1.2
      have h4 : kv.1 ∉ sorted.drop n := by simpa using h3
      exact h4 h2
  have hkeynd : ((files.filter (fun kv => !((sorted.drop n).contains kv.1))).map
      Prod.fst).Nodup :=
    ((List.filter_sublist _).map Prod.fst).nodup hn
  have hlen := (List.subperm_of_subset hkeynd hkeysub).length_le
  rw [List.length_map] at hlen
  exact le_trans hlen (le_trans (le_of_eq (List.length_take _ _)) (min_le_left _ _))

theorem evictByCount_length (c : Cache) (hn : (c.files.map Prod.fst).Nodup) :
    (evictByCount c).1.files.length ≤ MAX_CACHE_FILES := by
  simp only [evictByCount]
  by_cases h : MAX_CACHE_FILES < (c.files.map Prod.fst).length
  · rw [if_pos h]
    exact length_filter_not_in_drop c.files _ MAX_CACHE_FILES
      (List.mergeSort_perm _ _) hn
  · rw [if_neg h]
    rw [List.length_map] at h
    show c.files.length ≤ MAX_CACHE_FILES
    omega

theorem evictWhileOversize_version : ∀ (order : List Str) (c : Cache),
    (evictWhileOversize c order).version = c.version := by
  intro order
  induction order with
  | nil => intro c; rfl
  | cons k rest ih =>
    intro c
    simp only [evictWhileOversize]
    split
    · rfl
    · exact ih _

theorem evictWhileOversize_sublist : ∀ (order : List Str) (c : Cache),
    ((evictWhileOversize c order).files).Sublist c.files := by
  intro order
  induction order with
  | nil => intro c; exact List.Sublist.refl _
  | cons k rest ih =>
    intro c
    simp only [evictWhileOversize]
    split
    · exact List.Sublist.refl _
    · exact (ih _).trans (List.filter_sublist _)

theorem evictWhileOversize_le : ∀ (order : List Str) (c : Cache),
    (∀ k ∈ c.files.map Prod.fst, k ∈ order) →
    serializedSize ⟨c.version, []⟩ ≤ MAX_CACHE_JSON_BYTES →
    serializedSize (evictWhileOversize c order) ≤ MAX_CACHE_JSON_BYTES := by
  intro order
  induction order with
  | nil =>
    intro c hsub hemp
    have hf : c.files = [] := by
      cases hf : c.files with
      | nil => rfl
      | cons kv t =>
        exfalso
        have hm := hsub kv.1 (by rw [hf]; exact List.mem_map_of_mem _ (List.mem_cons_self _ _))
        simp at hm
    have hc : c = ⟨c.version, []⟩ := by rw [← hf]
    show serializedSize c ≤ MAX_CACHE_JSON_BYTES
    rw [hc]
    exact hemp
  | cons k rest ih =>
    intro c hsub hemp
    simp only [evictWhileOversize]
    by_cases hle : serializedSize c ≤ MAX_CACHE_JSON_BYTES
    · rw [if_pos hle]
      exact hle
    · rw [if_neg hle]
      refine ih _ ?_ hemp
      intro x hx
      rcases List.mem_map.mp hx with ⟨kv, hkv, rfl⟩
      have h1 := List.mem_filter.mp hkv
      have h2 := hsub kv.1 (List.mem_map_of_mem _ h1.1)
      rcases List.mem_cons.mp h2 with h3 | h3
      · exfalso
        have h4 := h1.2
        rw [h3] at h4
        simp at h4
      · exact h3

theorem setKey_nodup (files : List (Str × CacheEntry)) (k : Str) (v : CacheEntry)
    (hn : (files.map Prod.fst).Nodup) : ((setKey files k v).map Prod.fst).Nodup := by
  rw [setKey]
  by_cases h : files.any (fun kv => kv.1 == k) = true
  · rw [if_pos h]
    have heq : (files.map (fun kv => if kv.1 == k then (k, v) else kv)).map Prod.fst =
        files.map Prod.fst := by
      rw [List.map_map]
      apply List.map_congr_left
      intro kv _
      by_cases hb : (kv.1 == k) = true
      · simp only [Function.comp_apply, hb, if_pos]
        exact (eq_of_beq hb).symm
      · simp only [Function.comp_apply, hb, if_neg]
        simp [hb]
    rw [heq]
    exact hn
  · rw [if_neg h]
    rw [List.map_append]
    have h' : files.any (fun kv => kv.1 == k) = false := Bool.eq_false_iff.mpr h
    have hknot : k ∉ files.map Prod.fst := by
      intro hk
      rcases List.mem_map.mp hk with ⟨kv, hkv, hfst⟩
      have h5 := List.any_eq_false.mp h' kv hkv
      rw [hfst] at h5
      simp at h5
    simp [List.nodup_append, hn, hknot]

theorem processFile_inv (lg : Nat → ℚ) (kws : List Str) (ms : ℚ)
    (fsd : List (Str × FileData)) (st : ScanState) (f : Str)
    (hv : st.cache.version = 1) (hn : (st.cache.files.map Prod.fst).Nodup) :
    (processFile lg kws ms fsd st f).cache.version = 1 ∧
    ((processFile lg kws ms fsd st f).cache.files.map Prod.fst).Nodup := by
  cases hfd : List.lookup f fsd with
  | none =>
    simp only [processFile, hfd]
    exact ⟨hv, hn⟩
  | some fd =>
    cases hce : List.lookup f st.cache.files with
    | none =>
      simp only [processFile, hfd, hce, refreshFile]
      exact ⟨hv, setKey_nodup _ _ _ hn⟩
    | some e =>
      by_cases hm : e.mtimeMs = fd.mtimeMs
      · simp only [processFile, hfd, hce, hm, if_pos]
        exact ⟨hv, hn⟩
      · simp only [processFile, hfd, hce, hm, if_neg, refreshFile]
        exact ⟨hv, setKey_nodup _ _ _ hn⟩

theorem warmFile_inv (fsd : List (Str × FileData)) (st : WarmState) (f : Str)
    (hv : st.cache.version = 1) (hn : (st.cache.files.map Prod.fst).Nodup) :
    (warmFile fsd st f).cache.version = 1 ∧
    ((warmFile fsd st f).cache.files.map Prod.fst).Nodup := by
  cases hfd : List.lookup f fsd with
  | none =>
    simp only [warmFile, hfd]
    exact ⟨hv, hn⟩
  | some fd =>
    cases hce : List.lookup f st.cache.files with
    | none =>
      simp only [warmFile, hfd, hce]
      exact ⟨hv, setKey_nodup _ _ _ hn⟩
    | some e =>
      by_cases hm : e.mtimeMs = fd.mtimeMs
      · simp only [warmFile, hfd, hce, hm, if_pos]
        exact ⟨hv, hn⟩
      · simp only [warmFile, hfd, hce, hm, if_neg]
        exact ⟨hv, setKey_nodup _ _ _ hn⟩

theorem foldl_processFile_inv (lg : Nat → ℚ) (kws : List Str) (ms : ℚ)
    (fsd : List (Str × FileData)) :
    ∀ (files : List Str) (st : ScanState),
      st.cache.version = 1 → (st.cache.files.map Prod.fst).Nodup →
      (files.foldl (processFile lg kws ms fsd) st).cache.version = 1 ∧
      ((files.foldl (processFile lg kws ms fsd) st).cache.files.map Prod.fst).Nodup := by
  intro files
  induction files with
  | nil => intro st hv hn; exact ⟨hv, hn⟩
  | cons f fs ih =>
    intro st hv hn
    have h1 := processFile_inv lg kws ms fsd st f hv hn
    rw [List.foldl_cons]
    exact ih _ h1.1 h1.2

theorem foldl_warmFile_inv (fsd : List (Str × FileData)) :
    ∀ (files : List Str) (st : WarmState),
      st.cache.version = 1 → (st.cache.files.map Prod.fst).Nodup →
      (files.foldl (warmFile fsd) st).cache.version = 1 ∧
      ((files.foldl (warmFile fsd) st).cache.files.map Prod.fst).Nodup := by
  intro files
  induction files with
  | nil => intro st hv hn; exact ⟨hv, hn⟩
  | cons f fs ih =>
    intro st hv hn
    have h1 := warmFile_inv fsd st f hv hn
    rw [List.foldl_cons]
    exact ih _ h1.1 h1.2

theorem finishCache_version (c : Cache) (files : List Str) (d : Bool) :
    (finishCache c files d).1.version = c.version := by
  simp only [finishCache]
  split
  · split
    · exact (evictWhileOversize_version _ _).trans (evictByCount_version _)
    · exact evictByCount_version _
  · exact evictByCount_version _

theorem finishCache_length (c : Cache) (files : List Str) (d : Bool)
    (hn : (c.files.map Prod.fst).Nodup) :
    (finishCache c files d).1.files.length ≤ MAX_CACHE_FILES := by
  have hn1 : ((pruneFiles c.files files).map Prod.fst).Nodup :=
    ((List.filter_sublist _).map Prod.fst).nodup hn
  have hev := evictByCount_length { c with files := pruneFiles c.files files } hn1
  simp only [finishCache]
  split
  · split
    · exact le_trans (evictWhileOversize_sublist _ _).length_le hev
    · exact hev
  · exact hev

theorem finishCache_size (c : Cache) (files : List Str) (d : Bool)
    (hv : c.version = 1) :
    (finishCache c files d).2 = true →
    serializedSize (finishCache c files d).1 ≤ MAX_CACHE_JSON_BYTES := by
  intro hd
  simp only [finishCache] at hd ⊢
  rw [if_pos hd]
  by_cases hsz : MAX_CACHE_JSON_BYTES <
      serializedSize (evictByCount { c with files := pruneFiles c.files files }).1
  · rw [if_pos hsz]
    refine evictWhileOversize_le _ _ ?_ ?_
    · intro k hk
      rw [List.mem_reverse]
      simp only [newestFirstKeys]
      exact (List.mergeSort_perm _ _).mem_iff.mpr hk
    · have hv1 : (evictByCount { c with files := pruneFiles c.files files }).1.version = 1 :=
        (evictByCount_version _).trans hv
      rw [hv1]
      decide
  · rw [if_neg hsz]
    omega

/-- C6 (amended): after every search batch whose query yields at least one
keyword, and after every cache warmup, the in-memory cache satisfies the
entry-count ceiling (at most MAX_CACHE_FILES entries), whatever
well-formed cache was loaded from disk; and whenever the batch set the
dirty flag (the only case in which the cache file is written) the
serialized byte size also satisfies MAX_CACHE_JSON_BYTES.  The original
claim asserts both ceilings unconditionally, but the byte-size eviction is
gated on the dirty flag, so a clean batch leaves an oversized loaded
cache oversized (see the counterexample); a zero-keyword query also
returns before any eviction. -/
theorem c6_cache_ceilings (lg : Nat → ℚ) (query : Str) (files : List Str)
    (fsd : List (Str × FileData)) (cache : Cache) (maxResults : Nat)
    (minScore : ℚ) (hv : cache.version = 1)
    (hn : (cache.files.map Prod.fst).Nodup)
    (hkw : ¬((extractKeywords query).isEmpty = true)) :
    ((vectorSearchFiles lg query files fsd cache maxResults minScore).cache.files.length ≤
        MAX_CACHE_FILES ∧
      ((vectorSearchFiles lg query files fsd cache maxResults minScore).dirty = true →
        serializedSize (vectorSearchFiles lg query files fsd cache maxResults minScore).cache ≤
          MAX_CACHE_JSON_BYTES)) ∧
    ((warmSearchCache files fsd cache).cache.files.length ≤ MAX_CACHE_FILES ∧
      ((warmSearchCache files fsd cache).dirty = true →
        serializedSize (warmSearchCache files fsd cache).cache ≤
          MAX_CACHE_JSON_BYTES)) := by
  constructor
  · have hinv := foldl_processFile_inv lg (extractKeywords query) minScore fsd files
      ⟨cache, false, [], 0⟩ hv hn
    constructor
    · simp only [vectorSearchFiles, hkw, if_false]
      exact finishCache_length _ _ _ hinv.2
    · intro hd
      simp only [vectorSearchFiles, hkw, if_false] at hd ⊢
      exact finishCache_size _ _ _ hinv.1 hd
  · have hinv := foldl_warmFile_inv fsd files ⟨cache, false, 0, 0⟩ hv hn
    constructor
    · simp only [warmSearchCache]
      exact finishCache_length _ _ _ hinv.2
    · intro hd
      simp only [warmSearchCache] at hd ⊢
      exact finishCache_size _ _ _ hinv.1 hd

/-- C6 witness: the ceilings evaluated after a concrete batch and warmup
over a fresh one-file corpus and an empty well-formed cache. -/
theorem c6_witness :
    ((vectorSearchFiles lgOne (str "alpha") [str "a.md"]
        [(str "a.md", ⟨3, str "alpha text"⟩)] ⟨1, []⟩ 10 1).cache.files.length ≤
        MAX_CACHE_FILES ∧
      ((vectorSearchFiles lgOne (str "alpha") [str "a.md"]
          [(str "a.md", ⟨3, str "alpha text"⟩)] ⟨1, []⟩ 10 1).dirty = true →
        serializedSize (vectorSearchFiles lgOne (str "alpha") [str "a.md"]
          [(str "a.md", ⟨3, str "alpha text"⟩)] ⟨1, []⟩ 10 1).cache ≤
          MAX_CACHE_JSON_BYTES)) ∧
    ((warmSearchCache [str "a.md"] [(str "a.md", ⟨3, str "alpha text"⟩)]
        ⟨1, []⟩).cache.files.length ≤ MAX_CACHE_FILES ∧
      ((warmSearchCache [str "a.md"] [(str "a.md", ⟨3, str "alpha text"⟩)]
          ⟨1, []⟩).dirty = true →
        serializedSize (warmSearchCache [str "a.md"]
          [(str "a.md", ⟨3, str "alpha text"⟩)] ⟨1, []⟩).cache ≤
          MAX_CACHE_JSON_BYTES)) :=
  c6_cache_ceilings lgOne (str "alpha") [str "a.md"]
    [(str "a.md", ⟨3, str "alpha text"⟩)] ⟨1, []⟩ 10 1 rfl (by decide) (by decide)

theorem utf8Len_append (a b : Str) : utf8Len (a ++ b) = utf8Len a + utf8Len b := by
  simp [utf8Len, List.sum_append]

theorem utf8Len_cons (c : Char) (s : Str) :
    utf8Len (c :: s) = c.utf8Size + utf8Len s := by
  simp [utf8Len]

theorem jsonEsc_replicate_x (n : Nat) :
    utf8Len (jsonEsc (List.replicate n 'x')) = n := by
  induction n with
  | zero => rfl
  | succ k ih =>
    rw [List.replicate_succ]
    simp only [jsonEsc, List.flatMap_cons] at ih ⊢
    rw [utf8Len_append]
    have h1 : jsonEscChar 'x' = ['x'] := by decide
    rw [h1, ih]
    have h2 : utf8Len ['x'] = 1 := rfl
    omega

theorem bigCache_oversize : MAX_CACHE_JSON_BYTES < serializedSize bigCache := by
  rw [serializedSize]
  have hstruct : serializeCache bigCache =
      (str "\x7b\"version\":" ++ intStr 1 ++ str ",\"files\":\x7b" ++
        (jsonStr (str "a.md") ++ str ":\x7b\"mtimeMs\":" ++ intStr 0 ++
          str ",\"chunks\":[" ++
          (str "\x7b\"text\":" ++ jsonStr bigChunk ++ str "\x7d") ++
          str "]\x7d") ++ str "\x7d\x7d") := rfl
  rw [hstruct]
  simp only [jsonStr, utf8Len_append, utf8Len_cons]
  have hbig : utf8Len (jsonEsc bigChunk) = 11000000 := by
    show utf8Len (jsonEsc (List.replicate 11000000 'x')) = 11000000
    exact jsonEsc_replicate_x _
  rw [hbig]
  decide

/-- C6 counterexample: a clean search batch over a well-formed loaded
cache whose serialized size already exceeds the byte ceiling leaves the
cache entirely unchanged (dirty stays false, so the byte-ceiling eviction
is never reached) and still over the ceiling afterwards, refuting the
claim that both ceilings hold after every cache-touching operation
regardless of the loaded state. -/
theorem c6_counterexample :
    (vectorSearchFiles lgOne (str "alpha") [str "a.md"]
        [(str "a.md", ⟨0, []⟩)] bigCache 10 1).cache = bigCache ∧
    (vectorSearchFiles lgOne (str "alpha") [str "a.md"]
        [(str "a.md", ⟨0, []⟩)] bigCache 10 1).dirty = false ∧
    MAX_CACHE_JSON_BYTES <
      serializedSize (vectorSearchFiles lgOne (str "alpha") [str "a.md"]
        [(str "a.md", ⟨0, []⟩)] bigCache 10 1).cache := by
  have h := vectorSearchFiles_clean_batch lgOne (str "alpha") [str "a.md"]
    [(str "a.md", ⟨0, []⟩)] bigCache 10 1
    (by
      intro f hf
      simp only [List.mem_singleton] at hf
      subst hf
      exact ⟨⟨0, []⟩, rfl, ⟨0, [bigChunk]⟩, rfl, rfl⟩)
    (by
      intro kv hkv
      simp only [bigCache, List.mem_singleton] at hkv
      subst hkv
      rfl)
    (by
      show bigCache.files.length ≤ MAX_CACHE_FILES
      simp [bigCache, MAX_CACHE_FILES])
  exact ⟨h.1, h.2.1, by rw [h.1]; exact bigCache_oversize⟩

end AdaptiveMemory
